import Mathlib

/-!
# Template method (`template_method/template_method.go`)

A shallow embedding of the Go package `template_method` and the properties of
its display routine.

## Modelling conventions

* A Go `string` is an immutable sequence of bytes: `GoString := List Nat`, every
  element being a byte value.  String literals of the source file are UTF-8, and
  `goString` produces their bytes.
* A Go `rune` is an `int32`: an `Int` together with the range predicate
  `isInt32`.
* The conversion `string(r)` of a rune and the iteration `for range s` over a
  string are the Go runtime's `encoderune` and `decoderune`; both are embedded
  here from the runtime's definitions, bit operations included.
* A method with a pointer receiver may read and write its receiver, so every
  hook is a state-passing function `σ → GoString × σ`, where `σ` is the
  receiver's state.
* A printer may be absent in two ways.  The interface value may be nil:
  `Option (printerOrPanic σ)`, and a method call on it is a run-time panic.  Or
  the interface value may hold a nil pointer: the receiver is an `Option`, its
  methods are invoked, and those that read a field panic.  A run that panics
  returns `Except.error` with the kind of the panic, the method call during
  which it was raised, and the state reached.
-/

namespace TemplateMethod

/-- A Go string: its bytes, in order. -/
abbrev GoString := List Nat

/-! ## UTF-8 constants of the Go runtime (`runtime/utf8.go`) -/

def runeError : Nat := 0xFFFD
def runeSelf : Nat := 0x80
def maxRune : Nat := 0x10FFFF
def surrogateMin : Nat := 0xD800
def surrogateMax : Nat := 0xDFFF
def t1 : Nat := 0x00
def tx : Nat := 0x80
def t2 : Nat := 0xC0
def t3 : Nat := 0xE0
def t4 : Nat := 0xF0
def t5 : Nat := 0xF8
def maskx : Nat := 0x3F
def mask2 : Nat := 0x1F
def mask3 : Nat := 0x0F
def mask4 : Nat := 0x07
def rune1Max : Nat := 0x7F
def rune2Max : Nat := 0x7FF
def rune3Max : Nat := 0xFFFF
def locb : Nat := 0x80
def hicb : Nat := 0xBF

/-- The range of the Go type `rune` (`int32`). -/
def isInt32 (r : Int) : Prop := -2147483648 ≤ r ∧ r < 2147483648

instance (r : Int) : Decidable (isInt32 r) := by
  unfold isInt32; infer_instance

/-- A Unicode scalar value: a code point up to `U+10FFFF` outside the surrogate
range. These are the runes with a UTF-8 encoding of their own. -/
def isScalar (r : Int) : Prop := 0 ≤ r ∧ r ≤ 0x10FFFF ∧ ¬ (0xD800 ≤ r ∧ r ≤ 0xDFFF)

instance (r : Int) : Decidable (isScalar r) := by
  unfold isScalar; infer_instance

/-- The conversion `byte(x)` of a non-negative integer: its low eight bits. -/
def byte (x : Nat) : Nat := x % 256

/-- The conversion `uint32(r)` of a rune. -/
def uint32 (r : Int) : Nat := (r % 4294967296).toNat

/-- The three-byte form written by `encoderune` (its `case i <= rune3Max`,
also reached by `fallthrough` with `r = runeError`). -/
def encode3 (r : Nat) : GoString :=
  [t3 ||| byte (r >>> 12), tx ||| (byte (r >>> 6) &&& maskx), tx ||| (byte r &&& maskx)]

/-- The runtime's `encoderune`: the UTF-8 bytes written for the rune `r`.
The switch is on `i := uint32(r)`; in every branch that reads the bits of `r`,
`r` is non-negative and equal to `i`. -/
def encoderune (r : Int) : GoString :=
  let i := uint32 r
  if i ≤ rune1Max then
    [byte i]
  else if i ≤ rune2Max then
    [t2 ||| byte (i >>> 6), tx ||| (byte i &&& maskx)]
  else if i > maxRune ∨ (surrogateMin ≤ i ∧ i ≤ surrogateMax) then
    encode3 runeError
  else if i ≤ rune3Max then
    encode3 i
  else
    [t4 ||| byte (i >>> 18), tx ||| (byte (i >>> 12) &&& maskx),
     tx ||| (byte (i >>> 6) &&& maskx), tx ||| (byte i &&& maskx)]

/-- The conversion `string(r)` of a rune `r` (the runtime's `intstring`, which
writes `encoderune` into a buffer and returns the bytes written). -/
def stringOfRune (r : Int) : GoString := encoderune r

/-- The bytes of a string literal of the (UTF-8) source file. -/
def goString (s : String) : GoString :=
  (s.toList.map (fun c => encoderune (c.toNat : Int))).flatten

/-- A continuation byte: `locb <= b && b <= hicb`. -/
def isCont (b : Nat) : Bool := decide (locb ≤ b ∧ b ≤ hicb)

/-- The runtime's `decoderune(s, k)` on the suffix `s[k:]`: the rune decoded
there and the number of bytes it takes (`pos - k`).  Every failure yields
`(runeError, 1)`. -/
def decoderune (s : GoString) : Nat × Nat :=
  match s with
  | [] => (runeError, 1)
  | s0 :: rest =>
    if t2 ≤ s0 ∧ s0 < t3 then
      match rest with
      | s1 :: _ =>
        if isCont s1 then
          let r := (s0 &&& mask2) <<< 6 ||| (s1 &&& maskx)
          if rune1Max < r then (r, 2) else (runeError, 1)
        else (runeError, 1)
      | _ => (runeError, 1)
    else if t3 ≤ s0 ∧ s0 < t4 then
      match rest with
      | s1 :: s2 :: _ =>
        if isCont s1 ∧ isCont s2 then
          let r := (s0 &&& mask3) <<< 12 ||| (s1 &&& maskx) <<< 6 ||| (s2 &&& maskx)
          if rune2Max < r ∧ ¬ (surrogateMin ≤ r ∧ r ≤ surrogateMax) then (r, 3)
          else (runeError, 1)
        else (runeError, 1)
      | _ => (runeError, 1)
    else if t4 ≤ s0 ∧ s0 < t5 then
      match rest with
      | s1 :: s2 :: s3 :: _ =>
        if isCont s1 ∧ isCont s2 ∧ isCont s3 then
          let r := (s0 &&& mask4) <<< 18 ||| (s1 &&& maskx) <<< 12 |||
            (s2 &&& maskx) <<< 6 ||| (s3 &&& maskx)
          if rune3Max < r ∧ r ≤ maxRune then (r, 4) else (runeError, 1)
        else (runeError, 1)
      | _ => (runeError, 1)
    else (runeError, 1)

/-- The iteration `for _, r := range s`, with `fuel` bounding the number of
iterations: the runes it yields, in order.  A byte below `runeSelf` is a rune by
itself; otherwise `decoderune` gives the rune and the position of the next. -/
def rangeRunesAux : Nat → GoString → List Int
  | 0, _ => []
  | _, [] => []
  | fuel + 1, s0 :: rest =>
    if s0 < runeSelf then
      (s0 : Int) :: rangeRunesAux fuel rest
    else
      ((decoderune (s0 :: rest)).1 : Int) ::
        rangeRunesAux fuel ((s0 :: rest).drop (decoderune (s0 :: rest)).2)

/-- The runes that `for _, r := range s` yields.  Each iteration consumes at
least one byte, so `s.length` iterations always suffice
(see `rangeRunesAux_fuel`). -/
def rangeRunes (s : GoString) : List Int := rangeRunesAux s.length s

/-- The number of characters (code points) of a string: the number of
iterations of `for range s`, which is `utf8.RuneCountInString(s)`. -/
def runeCount (s : GoString) : Nat := (rangeRunes s).length

/-! ## The package -/

/-- The interface `printer`, held together with the state `σ` of its dynamic
receiver: each hook returns its string and the receiver's state after the
call. -/
structure printer (σ : Type) where
  open_ : σ → GoString × σ
  print : σ → GoString × σ
  close : σ → GoString × σ

/-- The empty struct `AbstractDisplay`. -/
structure AbstractDisplay where
  deriving DecidableEq, Repr

/-- One iteration of the loop of `display`: `result += printer.print()`. -/
def displayStep {σ : Type} (p : printer σ) (acc : GoString × σ) : GoString × σ :=
  let out := p.print acc.2
  (acc.1 ++ out.1, out.2)

/-- The method `(*AbstractDisplay).display`.  The receiver is not used by the
body.  The loop `for i := 0; i < 5; i++` runs its body for `i = 0, ..., 4`. -/
def AbstractDisplay.display {σ : Type} (_self : AbstractDisplay) (p : printer σ) (s : σ) :
    GoString × σ :=
  let result := p.open_ s
  let result := (List.range 5).foldl (fun acc _i => displayStep p acc) result
  let out := p.close result.2
  (result.1 ++ out.1, out.2)

/-- The struct `CharDisplay`: the embedded `*AbstractDisplay` (possibly nil) and
the rune `char`. -/
structure CharDisplay where
  base : Option AbstractDisplay
  char : Int
  deriving DecidableEq, Repr

def CharDisplay.open_ (self : CharDisplay) : GoString × CharDisplay :=
  (goString "<<", self)

def CharDisplay.print (self : CharDisplay) : GoString × CharDisplay :=
  (stringOfRune self.char, self)

def CharDisplay.close (self : CharDisplay) : GoString × CharDisplay :=
  (goString ">>", self)

/-- The value `*CharDisplay` as a `printer`. -/
def CharDisplay.printer : printer CharDisplay :=
  ⟨CharDisplay.open_, CharDisplay.print, CharDisplay.close⟩

/-- The struct `StringDisplay`: the embedded `*AbstractDisplay` (possibly nil)
and the string `str`. -/
structure StringDisplay where
  base : Option AbstractDisplay
  str : GoString
  deriving DecidableEq, Repr

/-- The method `printLine`: `line` starts as `"+-"`, gains one `"-"` for every
iteration of `for _, _ = range self.str`, and ends with `"-+\n"`. -/
def StringDisplay.printLine (self : StringDisplay) : GoString × StringDisplay :=
  let line := goString "+-"
  let line := (rangeRunes self.str).foldl (fun line _r => line ++ goString "-") line
  let line := line ++ goString "-+\n"
  (line, self)

def StringDisplay.open_ (self : StringDisplay) : GoString × StringDisplay :=
  self.printLine

def StringDisplay.print (self : StringDisplay) : GoString × StringDisplay :=
  (goString "| " ++ self.str ++ goString " |\n", self)

def StringDisplay.close (self : StringDisplay) : GoString × StringDisplay :=
  self.printLine

/-- The value `*StringDisplay` as a `printer`. -/
def StringDisplay.printer : printer StringDisplay :=
  ⟨StringDisplay.open_, StringDisplay.print, StringDisplay.close⟩

/-! ## Devices for stating the properties -/

/-- A string that is empty or whose first byte is not a continuation byte: no
multi-byte sequence of a preceding string can extend into it. -/
def startsClean (t : GoString) : Prop := ∀ h ∈ t.head?, isCont h = false

instance (t : GoString) : Decidable (startsClean t) := by
  unfold startsClean; infer_instance

/-- A printer whose hooks are pure: no call changes the receiver's state, so
each hook is a function of that state alone. -/
def printer.isPure {σ : Type} (p : printer σ) : Prop :=
  ∀ s : σ, (p.open_ s).2 = s ∧ (p.print s).2 = s ∧ (p.close s).2 = s

/-- The names of the three hooks, as recorded in a call trace. -/
inductive Hook where
  | open_
  | print
  | close
  deriving DecidableEq, Repr

/-- A printer instrumented with a call trace: each hook does what the hook of
`p` does and then appends its own name to the trace. -/
def traced {σ : Type} (p : printer σ) : printer (σ × List Hook) where
  open_ st := ((p.open_ st.1).1, ((p.open_ st.1).2, st.2 ++ [Hook.open_]))
  print st := ((p.print st.1).1, ((p.print st.1).2, st.2 ++ [Hook.print]))
  close st := ((p.close st.1).1, ((p.close st.1).2, st.2 ++ [Hook.close]))

/-- A sequence of method calls on one receiver, in order: the strings returned
and the receiver's state after the last call. -/
def runCalls {σ : Type} : List (σ → GoString × σ) → σ → List GoString × σ
  | [], s => ([], s)
  | f :: fs, s => ((f s).1 :: (runCalls fs (f s).2).1, (runCalls fs (f s).2).2)

/-- The call selected by a flag: `open()` for `true`, `close()` for `false`. -/
def StringDisplay.openOrClose (b : Bool) : StringDisplay → GoString × StringDisplay :=
  if b then StringDisplay.open_ else StringDisplay.close

/-- The bytes `'-'` repeated `n` times. -/
def dashes (n : Nat) : GoString := List.replicate n 0x2D

/-! ## Absent printers: nil interface values and nil receivers -/

/-- The kinds of failure of a call: Go's run-time panic "invalid memory address
or nil pointer dereference", and an `InvalidArgument` condition, which a check
of the argument would signal. -/
inductive Failure where
  | nilDereference
  | invalidArgument
  deriving DecidableEq, Repr

/-- A panic that ends a run of `display`: its kind, and the method call of the
body of `display` during which it was raised. -/
structure Panic where
  kind : Failure
  call : Hook
  deriving DecidableEq, Repr

/-- The interface `printer` with hooks that may panic: each hook returns its
string or the kind of its failure, and the state of its receiver after the
call. -/
structure printerOrPanic (σ : Type) where
  open_ : σ → Except Failure GoString × σ
  print : σ → Except Failure GoString × σ
  close : σ → Except Failure GoString × σ

/-- A printer whose hooks always return, as a `printerOrPanic`. -/
def printer.orPanic {σ : Type} (q : printer σ) : printerOrPanic σ where
  open_ s := (Except.ok (q.open_ s).1, (q.open_ s).2)
  print s := (Except.ok (q.print s).1, (q.print s).2)
  close s := (Except.ok (q.close s).1, (q.close s).2)

/-- The method of a printer that a call names. -/
def printerOrPanic.method {σ : Type} (q : printerOrPanic σ) :
    Hook → σ → Except Failure GoString × σ
  | Hook.open_ => q.open_
  | Hook.print => q.print
  | Hook.close => q.close

/-- A method call `printer.m()` through the interface value `p`, `call` naming
`m`.  On a nil interface value the call itself panics and no code of a hook
runs; otherwise the hook runs, and may panic.  The state after the call is kept
in every case. -/
def invoke {σ : Type} (p : Option (printerOrPanic σ)) (call : Hook) (s : σ) :
    Except Panic GoString × σ :=
  match p with
  | none => (Except.error ⟨Failure.nilDereference, call⟩, s)
  | some q =>
    match (q.method call s).1 with
    | Except.error k => (Except.error ⟨k, call⟩, (q.method call s).2)
    | Except.ok v => (Except.ok v, (q.method call s).2)

/-- Sequencing of statements: a panic ends the run where it happens, with the
state reached so far. -/
def andThen {σ : Type} (r : Except Panic GoString × σ)
    (k : GoString → σ → Except Panic GoString × σ) : Except Panic GoString × σ :=
  match r.1 with
  | Except.error e => (Except.error e, r.2)
  | Except.ok v => k v r.2

/-- The method `(*AbstractDisplay).display` on a printer that may be absent:
the same statements as `AbstractDisplay.display`, in the same order, each
method call going through `invoke`.  The body has no check of its argument and
no `recover`. -/
def AbstractDisplay.displayOrPanic {σ : Type} (_self : AbstractDisplay)
    (p : Option (printerOrPanic σ)) (s : σ) : Except Panic GoString × σ :=
  andThen (invoke p Hook.open_ s) fun result s1 =>
  andThen ((List.range 5).foldl
    (fun acc _i => andThen acc fun result s2 =>
      andThen (invoke p Hook.print s2) fun out s3 => (Except.ok (result ++ out), s3))
    (Except.ok result, s1)) fun result s4 =>
  andThen (invoke p Hook.close s4) fun out s5 => (Except.ok (result ++ out), s5)

/-- The method `(*CharDisplay).open` on a receiver that may be nil: the body
`return "<<"` does not read the receiver. -/
def CharDisplay.openPtr (self : Option CharDisplay) :
    Except Failure GoString × Option CharDisplay :=
  match self with
  | none => (Except.ok (goString "<<"), none)
  | some d => (Except.ok d.open_.1, some d.open_.2)

/-- The method `(*CharDisplay).print` on a receiver that may be nil: the body
reads `self.char`, which panics on a nil receiver. -/
def CharDisplay.printPtr (self : Option CharDisplay) :
    Except Failure GoString × Option CharDisplay :=
  match self with
  | none => (Except.error Failure.nilDereference, none)
  | some d => (Except.ok d.print.1, some d.print.2)

/-- The method `(*CharDisplay).close` on a receiver that may be nil: the body
`return ">>"` does not read the receiver. -/
def CharDisplay.closePtr (self : Option CharDisplay) :
    Except Failure GoString × Option CharDisplay :=
  match self with
  | none => (Except.ok (goString ">>"), none)
  | some d => (Except.ok d.close.1, some d.close.2)

/-- The value `*CharDisplay`, possibly a nil pointer, as a printer. -/
def CharDisplay.ptrPrinter : printerOrPanic (Option CharDisplay) :=
  ⟨CharDisplay.openPtr, CharDisplay.printPtr, CharDisplay.closePtr⟩

/-- The method `(*StringDisplay).printLine` on a receiver that may be nil: the
loop reads `self.str`, which panics on a nil receiver. -/
def StringDisplay.printLinePtr (self : Option StringDisplay) :
    Except Failure GoString × Option StringDisplay :=
  match self with
  | none => (Except.error Failure.nilDereference, none)
  | some d => (Except.ok d.printLine.1, some d.printLine.2)

/-- The method `(*StringDisplay).open` on a receiver that may be nil: it calls
`self.printLine()`. -/
def StringDisplay.openPtr (self : Option StringDisplay) :
    Except Failure GoString × Option StringDisplay :=
  StringDisplay.printLinePtr self

/-- The method `(*StringDisplay).print` on a receiver that may be nil: the body
reads `self.str`, which panics on a nil receiver. -/
def StringDisplay.printPtr (self : Option StringDisplay) :
    Except Failure GoString × Option StringDisplay :=
  match self with
  | none => (Except.error Failure.nilDereference, none)
  | some d => (Except.ok d.print.1, some d.print.2)

/-- The method `(*StringDisplay).close` on a receiver that may be nil: it calls
`self.printLine()`. -/
def StringDisplay.closePtr (self : Option StringDisplay) :
    Except Failure GoString × Option StringDisplay :=
  StringDisplay.printLinePtr self

/-- The value `*StringDisplay`, possibly a nil pointer, as a printer. -/
def StringDisplay.ptrPrinter : printerOrPanic (Option StringDisplay) :=
  ⟨StringDisplay.openPtr, StringDisplay.printPtr, StringDisplay.closePtr⟩

/-- A printer instrumented with a call trace: each hook appends its own name to
the trace when it is invoked, then does what the hook of `p` does, panic
included. -/
def tracedOrPanic {σ : Type} (p : printerOrPanic σ) : printerOrPanic (σ × List Hook) where
  open_ st := ((p.open_ st.1).1, ((p.open_ st.1).2, st.2 ++ [Hook.open_]))
  print st := ((p.print st.1).1, ((p.print st.1).2, st.2 ++ [Hook.print]))
  close st := ((p.close st.1).1, ((p.close st.1).2, st.2 ++ [Hook.close]))

/-! ## The iteration over a string is total -/

theorem decoderune_width (s : GoString) :
    1 ≤ (decoderune s).2 ∧ (decoderune s).2 ≤ 4 := by
  unfold decoderune
  repeat' split
  all_goals first
    | (constructor <;> simp; done)
    | (simp only []; split <;> constructor <;> simp)

theorem rangeRunesAux_nil (fuel : Nat) : rangeRunesAux fuel [] = [] := by
  cases fuel <;> rfl

theorem rangeRunesAux_congr (n : Nat) : ∀ (m : Nat) (s : GoString),
    s.length ≤ n → s.length ≤ m → rangeRunesAux n s = rangeRunesAux m s := by
  induction n with
  | zero =>
    intro m s hn _
    have : s = [] := List.length_eq_zero.mp (Nat.le_zero.mp hn)
    subst this
    rw [rangeRunesAux_nil, rangeRunesAux_nil]
  | succ n ih =>
    intro m s hn hm
    cases s with
    | nil => rw [rangeRunesAux_nil, rangeRunesAux_nil]
    | cons s0 rest =>
      cases m with
      | zero => simp at hm
      | succ m =>
        have hw := (decoderune_width (s0 :: rest)).1
        simp only [List.length_cons, Nat.add_le_add_iff_right] at hn hm
        simp only [rangeRunesAux]
        split
        · rw [ih m rest hn hm]
        · have hd : ((s0 :: rest).drop (decoderune (s0 :: rest)).2).length ≤ rest.length := by
            simp only [List.length_drop, List.length_cons]; omega
          rw [ih m _ (Nat.le_trans hd hn) (Nat.le_trans hd hm)]

/-- Any fuel of at least the length of the string runs the iteration to its
end: the bound in `rangeRunes` never cuts it short. -/
theorem rangeRunesAux_fuel (fuel : Nat) (s : GoString) (h : s.length ≤ fuel) :
    rangeRunesAux fuel s = rangeRunes s :=
  rangeRunesAux_congr fuel s.length s h (Nat.le_refl _)

theorem rangeRunes_nil : rangeRunes [] = [] := rfl

theorem rangeRunes_cons (s0 : Nat) (rest : GoString) :
    rangeRunes (s0 :: rest) =
      if s0 < runeSelf then (s0 : Int) :: rangeRunes rest
      else ((decoderune (s0 :: rest)).1 : Int) ::
        rangeRunes ((s0 :: rest).drop (decoderune (s0 :: rest)).2) := by
  have hw := (decoderune_width (s0 :: rest)).1
  show rangeRunesAux (rest.length + 1) (s0 :: rest) = _
  simp only [rangeRunesAux]
  split
  · rfl
  · rw [rangeRunesAux_fuel]
    simp only [List.length_drop, List.length_cons]; omega

/-! ## Bit operations on bytes, as arithmetic -/

theorem or_of_lt (i a b : Nat) (h : b < 2 ^ i) : 2 ^ i * a ||| b = 2 ^ i * a + b :=
  (Nat.mul_add_lt_is_or h a).symm

theorem and_63 (x : Nat) : x &&& 63 = x % 64 := Nat.and_pow_two_sub_one_eq_mod x 6
theorem and_31 (x : Nat) : x &&& 31 = x % 32 := Nat.and_pow_two_sub_one_eq_mod x 5
theorem and_15 (x : Nat) : x &&& 15 = x % 16 := Nat.and_pow_two_sub_one_eq_mod x 4
theorem and_7 (x : Nat) : x &&& 7 = x % 8 := Nat.and_pow_two_sub_one_eq_mod x 3

theorem c128_or (y : Nat) (h : y < 64) : 128 ||| y = 128 + y := by
  have := or_of_lt 7 1 y (by omega)
  simpa using this
theorem c192_or (y : Nat) (h : y < 32) : 192 ||| y = 192 + y := by
  have := or_of_lt 6 3 y (by omega)
  simpa using this
theorem c224_or (y : Nat) (h : y < 16) : 224 ||| y = 224 + y := by
  have := or_of_lt 5 7 y (by omega)
  simpa using this
theorem c240_or (y : Nat) (h : y < 8) : 240 ||| y = 240 + y := by
  have := or_of_lt 4 15 y (by omega)
  simpa using this

theorem shl6_or (a c : Nat) (hc : c < 64) : a <<< 6 ||| c = a * 64 + c := by
  have := or_of_lt 6 a c (by omega)
  rw [Nat.shiftLeft_eq, Nat.mul_comm]
  simpa using this

theorem shl12_or (a b c : Nat) (hb : b < 64) (hc : c < 64) :
    a <<< 12 ||| b <<< 6 ||| c = a * 4096 + b * 64 + c := by
  have h1 := or_of_lt 12 a (b * 64) (by omega)
  have h2 := or_of_lt 6 (a * 64 + b) c (by omega)
  rw [Nat.shiftLeft_eq, Nat.shiftLeft_eq]
  norm_num at h1 h2 ⊢
  rw [Nat.mul_comm a 4096, h1, show 4096 * a + b * 64 = 64 * (a * 64 + b) by omega, h2]

theorem shl18_or (a b c d : Nat) (hb : b < 64) (hc : c < 64) (hd : d < 64) :
    a <<< 18 ||| b <<< 12 ||| c <<< 6 ||| d = a * 262144 + b * 4096 + c * 64 + d := by
  have h1 := or_of_lt 18 a (b * 4096) (by omega)
  have h2 := or_of_lt 12 (a * 64 + b) (c * 64) (by omega)
  have h3 := or_of_lt 6 (a * 4096 + b * 64 + c) d (by omega)
  rw [Nat.shiftLeft_eq, Nat.shiftLeft_eq, Nat.shiftLeft_eq]
  norm_num at h1 h2 h3 ⊢
  rw [Nat.mul_comm a 262144, h1, show 262144 * a + b * 4096 = 4096 * (a * 64 + b) by omega, h2,
    show 4096 * (a * 64 + b) + c * 64 = 64 * (a * 4096 + b * 64 + c) by omega, h3]

/-! ## Decoding well-formed sequences -/

theorem decoderune_two (a b : Nat) (rest : GoString) (ha : 192 ≤ a ∧ a < 224)
    (hb : 128 ≤ b ∧ b < 192) (hr : 127 < a % 32 * 64 + b % 64) :
    decoderune (a :: b :: rest) = (a % 32 * 64 + b % 64, 2) := by
  have e : (a &&& 31) <<< 6 ||| (b &&& 63) = a % 32 * 64 + b % 64 := by
    rw [and_31, and_63, shl6_or _ _ (Nat.mod_lt _ (by decide))]
  simp only [decoderune, t2, t3, isCont, locb, hicb, mask2, maskx, rune1Max, e]
  simp [ha, hb, hr]
  omega

theorem decoderune_three (a b c : Nat) (rest : GoString) (ha : 224 ≤ a ∧ a < 240)
    (hb : 128 ≤ b ∧ b < 192) (hc : 128 ≤ c ∧ c < 192)
    (hr : 2047 < a % 16 * 4096 + b % 64 * 64 + c % 64)
    (hs : ¬ (55296 ≤ a % 16 * 4096 + b % 64 * 64 + c % 64 ∧
      a % 16 * 4096 + b % 64 * 64 + c % 64 ≤ 57343)) :
    decoderune (a :: b :: c :: rest) = (a % 16 * 4096 + b % 64 * 64 + c % 64, 3) := by
  have e : (a &&& 15) <<< 12 ||| (b &&& 63) <<< 6 ||| (c &&& 63)
      = a % 16 * 4096 + b % 64 * 64 + c % 64 := by
    rw [and_15, and_63, and_63,
      shl12_or _ _ _ (Nat.mod_lt _ (by decide)) (Nat.mod_lt _ (by decide))]
  have h2 : ¬ (192 ≤ a ∧ a < 224) := by omega
  simp only [decoderune, t2, t3, t4, isCont, locb, hicb, mask3, maskx, rune2Max,
    surrogateMin, surrogateMax, e]
  simp [ha, hb, hc, hr, hs, h2]
  omega

theorem decoderune_four (a b c d : Nat) (rest : GoString) (ha : 240 ≤ a ∧ a < 248)
    (hb : 128 ≤ b ∧ b < 192) (hc : 128 ≤ c ∧ c < 192) (hd : 128 ≤ d ∧ d < 192)
    (hr : 65535 < a % 8 * 262144 + b % 64 * 4096 + c % 64 * 64 + d % 64)
    (hm : a % 8 * 262144 + b % 64 * 4096 + c % 64 * 64 + d % 64 ≤ 1114111) :
    decoderune (a :: b :: c :: d :: rest)
      = (a % 8 * 262144 + b % 64 * 4096 + c % 64 * 64 + d % 64, 4) := by
  have e : (a &&& 7) <<< 18 ||| (b &&& 63) <<< 12 ||| (c &&& 63) <<< 6 ||| (d &&& 63)
      = a % 8 * 262144 + b % 64 * 4096 + c % 64 * 64 + d % 64 := by
    rw [and_7, and_63, and_63, and_63, shl18_or _ _ _ _ (Nat.mod_lt _ (by decide))
      (Nat.mod_lt _ (by decide)) (Nat.mod_lt _ (by decide))]
  have h2 : ¬ (192 ≤ a ∧ a < 224) := by omega
  have h3 : ¬ (224 ≤ a ∧ a < 240) := by omega
  simp only [decoderune, t2, t3, t4, t5, isCont, locb, hicb, mask4, maskx, rune3Max,
    maxRune, e]
  simp [ha, hb, hc, hd, hr, hm, h2, h3]
  omega

/-! ## The bytes written by `encoderune` -/

theorem uint32_natCast (n : Nat) (h : n < 4294967296) : uint32 (n : Int) = n := by
  unfold uint32; omega

theorem tx_or (x : Nat) : tx ||| (byte x &&& maskx) = 128 + x % 64 := by
  unfold tx byte maskx
  rw [and_63, c128_or _ (Nat.mod_lt _ (by decide))]
  omega

theorem encoderune_one (n : Nat) (h : n ≤ 127) : encoderune (n : Int) = [n] := by
  unfold encoderune
  rw [uint32_natCast n (by omega)]
  simp only [rune1Max, byte, h, if_true]
  congr 1; omega

theorem encoderune_two (n : Nat) (h1 : 127 < n) (h2 : n ≤ 2047) :
    encoderune (n : Int) = [192 + n / 64, 128 + n % 64] := by
  unfold encoderune
  rw [uint32_natCast n (by omega)]
  have e : t2 ||| byte (n >>> 6) = 192 + n / 64 := by
    unfold t2 byte
    rw [Nat.shiftRight_eq_div_pow, c192_or _ (by omega)]
    omega
  simp only [rune1Max, rune2Max, e, tx_or]
  rw [if_neg (by omega), if_pos h2]

theorem encode3_eq (n : Nat) (h : n ≤ 65535) :
    encode3 n = [224 + n / 4096, 128 + n / 64 % 64, 128 + n % 64] := by
  have e : t3 ||| byte (n >>> 12) = 224 + n / 4096 := by
    unfold t3 byte
    rw [Nat.shiftRight_eq_div_pow, c224_or _ (by omega)]
    omega
  unfold encode3
  rw [e, tx_or, tx_or, Nat.shiftRight_eq_div_pow]

theorem encoderune_three (n : Nat) (h1 : 2047 < n) (h2 : n ≤ 65535)
    (hs : ¬ (55296 ≤ n ∧ n ≤ 57343)) :
    encoderune (n : Int) = [224 + n / 4096, 128 + n / 64 % 64, 128 + n % 64] := by
  unfold encoderune
  rw [uint32_natCast n (by omega)]
  simp only [rune1Max, rune2Max, rune3Max, maxRune, surrogateMin, surrogateMax]
  rw [if_neg (by omega), if_neg (by omega), if_neg (by omega), if_pos h2, encode3_eq n h2]

theorem encoderune_four (n : Nat) (h1 : 65535 < n) (h2 : n ≤ 1114111) :
    encoderune (n : Int)
      = [240 + n / 262144, 128 + n / 4096 % 64, 128 + n / 64 % 64, 128 + n % 64] := by
  unfold encoderune
  rw [uint32_natCast n (by omega)]
  have e : t4 ||| byte (n >>> 18) = 240 + n / 262144 := by
    unfold t4 byte
    rw [Nat.shiftRight_eq_div_pow, c240_or _ (by omega)]
    omega
  simp only [rune1Max, rune2Max, rune3Max, maxRune, surrogateMin, surrogateMax, e, tx_or]
  rw [if_neg (by omega), if_neg (by omega), if_neg (by omega), if_neg (by omega),
    Nat.shiftRight_eq_div_pow, Nat.shiftRight_eq_div_pow]

theorem encoderune_invalid (r : Int) (hr : isInt32 r) (h : ¬ isScalar r) :
    encoderune r = [239, 191, 189] := by
  unfold isInt32 at hr
  unfold isScalar at h
  have hi : 1114111 < uint32 r ∨ (55296 ≤ uint32 r ∧ uint32 r ≤ 57343) := by
    unfold uint32; omega
  unfold encoderune
  simp only [rune1Max, rune2Max, maxRune, surrogateMin, surrogateMax]
  rw [if_neg (by omega), if_neg (by omega), if_pos (by omega)]
  decide

/-! ## Encoding, then iterating -/

theorem rangeRunes_encoderune_natCast (n : Nat) (h : n ≤ 1114111)
    (hs : ¬ (55296 ≤ n ∧ n ≤ 57343)) : rangeRunes (encoderune (n : Int)) = [(n : Int)] := by
  by_cases h1 : n ≤ 127
  · rw [encoderune_one n h1, rangeRunes_cons, if_pos (by unfold runeSelf; omega), rangeRunes_nil]
  by_cases h2 : n ≤ 2047
  · rw [encoderune_two n (by omega) h2, rangeRunes_cons, if_neg (by unfold runeSelf; omega),
      decoderune_two _ _ _ (by omega) (by omega) (by omega)]
    simp only [List.drop_succ_cons, List.drop_zero, rangeRunes_nil]
    congr 2; omega
  by_cases h3 : n ≤ 65535
  · rw [encoderune_three n (by omega) h3 hs, rangeRunes_cons,
      if_neg (by unfold runeSelf; omega),
      decoderune_three _ _ _ _ (by omega) (by omega) (by omega) (by omega) (by omega)]
    simp only [List.drop_succ_cons, List.drop_zero, rangeRunes_nil]
    congr 2; omega
  · rw [encoderune_four n (by omega) h, rangeRunes_cons, if_neg (by unfold runeSelf; omega),
      decoderune_four _ _ _ _ _ (by omega) (by omega) (by omega) (by omega) (by omega)
        (by omega)]
    simp only [List.drop_succ_cons, List.drop_zero, rangeRunes_nil]
    congr 2; omega

theorem rangeRunes_encoderune_scalar (r : Int) (h : isScalar r) :
    rangeRunes (encoderune r) = [r] := by
  unfold isScalar at h
  obtain ⟨n, rfl⟩ := Int.eq_ofNat_of_zero_le h.1
  have := rangeRunes_encoderune_natCast n (by omega) (by omega)
  exact this

theorem rangeRunes_encoderune_invalid (r : Int) (hr : isInt32 r) (h : ¬ isScalar r) :
    rangeRunes (encoderune r) = [65533] := by
  rw [encoderune_invalid r hr h]
  decide

theorem startsClean_encoderune (r : Int) (hr : isInt32 r) :
    startsClean (encoderune r) ∧ encoderune r ≠ [] := by
  by_cases h : isScalar r
  · unfold isScalar at h
    obtain ⟨n, rfl⟩ := Int.eq_ofNat_of_zero_le h.1
    by_cases h1 : n ≤ 127
    · rw [encoderune_one n h1]
      simp [startsClean, isCont, locb, hicb]; omega
    by_cases h2 : n ≤ 2047
    · rw [encoderune_two n (by omega) h2]
      simp [startsClean, isCont, locb, hicb]; omega
    by_cases h3 : n ≤ 65535
    · rw [encoderune_three n (by omega) h3 (by omega)]
      simp [startsClean, isCont, locb, hicb]; omega
    · rw [encoderune_four n (by omega) (by omega)]
      simp [startsClean, isCont, locb, hicb]; omega
  · rw [encoderune_invalid r hr h]
    simp [startsClean, isCont, locb, hicb]

theorem decoderune_append (s0 : Nat) (rest t : GoString) (ht : startsClean t) :
    decoderune (s0 :: (rest ++ t)) = decoderune (s0 :: rest) ∧
      (decoderune (s0 :: rest)).2 ≤ rest.length + 1 := by
  rcases rest with _ | ⟨s1, _ | ⟨s2, _ | ⟨s3, rest⟩⟩⟩ <;> rcases t with _ | ⟨h, t⟩ <;>
    simp only [startsClean, List.head?_cons, List.head?_nil, Option.mem_def, Option.some.injEq,
      forall_eq', List.nil_append, List.cons_append, List.append_nil] at ht ⊢ <;>
    simp only [decoderune] <;> repeat' split
  all_goals simp_all

theorem rangeRunes_append_aux (n : Nat) : ∀ (s t : GoString), s.length ≤ n → startsClean t →
    rangeRunes (s ++ t) = rangeRunes s ++ rangeRunes t := by
  induction n with
  | zero =>
    intro s t hn _
    have : s = [] := List.length_eq_zero.mp (Nat.le_zero.mp hn)
    subst this
    rfl
  | succ n ih =>
    intro s t hn ht
    cases s with
    | nil => rfl
    | cons s0 rest =>
      simp only [List.length_cons, Nat.add_le_add_iff_right] at hn
      obtain ⟨hd, hw⟩ := decoderune_append s0 rest t ht
      have hpos := (decoderune_width (s0 :: rest)).1
      rw [List.cons_append, rangeRunes_cons, rangeRunes_cons, hd]
      split
      · rw [ih rest t hn ht]; rfl
      · have hdrop : (s0 :: (rest ++ t)).drop (decoderune (s0 :: rest)).2
            = (s0 :: rest).drop (decoderune (s0 :: rest)).2 ++ t := by
          rw [← List.cons_append, List.drop_append_of_le_length]
          simpa using hw
        rw [hdrop, ih _ t _ ht]
        · rfl
        · simp only [List.length_drop, List.length_cons]; omega

/-- Iterating over a concatenation: when the second string does not start with
a continuation byte, the runes of `s ++ t` are those of `s` followed by those of
`t`, whether or not `s` is valid UTF-8. -/
theorem rangeRunes_append (s t : GoString) (ht : startsClean t) :
    rangeRunes (s ++ t) = rangeRunes s ++ rangeRunes t :=
  rangeRunes_append_aux s.length s t (Nat.le_refl _) ht

theorem runeCount_append_stringOfRune (s : GoString) (r : Int) (hr : isInt32 r) :
    runeCount (s ++ stringOfRune r) = runeCount s + 1 := by
  unfold runeCount stringOfRune
  rw [rangeRunes_append s _ (startsClean_encoderune r hr).1, List.length_append]
  by_cases h : isScalar r
  · rw [rangeRunes_encoderune_scalar r h]; rfl
  · rw [rangeRunes_encoderune_invalid r hr h]; rfl

/-! ## String literals and the shape of the lines -/

theorem startsClean_append (a b : GoString) (ha : startsClean a) (hne : a ≠ []) :
    startsClean (a ++ b) := by
  cases a with
  | nil => exact absurd rfl hne
  | cons x xs => simpa [startsClean] using ha

theorem startsClean_flatten_encoderune (cs : List Char) :
    startsClean ((cs.map (fun c => encoderune (c.toNat : Int))).flatten) := by
  cases cs with
  | nil => simp [startsClean]
  | cons c cs =>
    have hc : isInt32 (c.toNat : Int) := by
      have := c.valid
      unfold isInt32
      simp only [Char.toNat, UInt32.isValidChar, Nat.isValidChar] at *
      omega
    have := startsClean_encoderune (c.toNat : Int) hc
    simp only [List.map_cons, List.flatten_cons]
    exact startsClean_append _ _ this.1 this.2

theorem isScalar_char (c : Char) : isScalar (c.toNat : Int) := by
  have := c.valid
  unfold isScalar
  simp only [Char.toNat, UInt32.isValidChar, Nat.isValidChar] at *
  omega

/-- The runes of a string literal are its characters: a string written as `N`
characters is iterated over in exactly `N` steps, whatever the byte width of
each character. -/
theorem rangeRunes_goString (str : String) :
    rangeRunes (goString str) = str.toList.map (fun c => (c.toNat : Int)) := by
  unfold goString
  induction str.toList with
  | nil => rfl
  | cons c cs ih =>
    simp only [List.map_cons, List.flatten_cons]
    rw [rangeRunes_append _ _ (startsClean_flatten_encoderune cs), ih,
      rangeRunes_encoderune_scalar _ (isScalar_char c)]
    rfl

theorem runeCount_goString (str : String) : runeCount (goString str) = str.length := by
  unfold runeCount
  rw [rangeRunes_goString, List.length_map]
  rfl

theorem foldl_append_dash (l : List Int) : ∀ init : GoString,
    l.foldl (fun line _r => line ++ goString "-") init = init ++ dashes l.length := by
  induction l with
  | nil => intro init; simp [dashes]
  | cons x xs ih =>
    intro init
    rw [List.foldl_cons, ih, List.length_cons, List.append_assoc]
    rfl

theorem printLine_fst (self : StringDisplay) :
    self.printLine.1 = [0x2B, 0x2D] ++ dashes (runeCount self.str) ++ [0x2D, 0x2B, 0x0A] := by
  unfold StringDisplay.printLine
  simp only [foldl_append_dash]
  rfl

theorem printLine_snd (self : StringDisplay) : self.printLine.2 = self := rfl

theorem dashes_frame (n : Nat) :
    [0x2B, 0x2D] ++ dashes n ++ [0x2D, 0x2B, 0x0A] = [0x2B] ++ dashes (n + 2) ++ [0x2B, 0x0A] := by
  unfold dashes
  rw [List.replicate_succ', List.replicate_succ]
  simp

theorem display_eq {σ : Type} (self : AbstractDisplay) (p : printer σ) (s : σ) :
    self.display p s =
      let r0 := p.open_ s
      let r1 := p.print r0.2
      let r2 := p.print r1.2
      let r3 := p.print r2.2
      let r4 := p.print r3.2
      let r5 := p.print r4.2
      let r6 := p.close r5.2
      (r0.1 ++ r1.1 ++ r2.1 ++ r3.1 ++ r4.1 ++ r5.1 ++ r6.1, r6.2) := rfl

theorem isInt32_of_isScalar (r : Int) (h : isScalar r) : isInt32 r := by
  unfold isScalar at h; unfold isInt32; omega

theorem rangeRunes_stringOfRune_append (r : Int) (h : isScalar r) (t : GoString)
    (ht : startsClean t) :
    rangeRunes (stringOfRune r ++ t) = r :: rangeRunes t := by
  unfold stringOfRune
  rw [rangeRunes_append _ _ ht, rangeRunes_encoderune_scalar r h]
  rfl

theorem startsClean_stringOfRune_append (r : Int) (h : isInt32 r) (t : GoString) :
    startsClean (stringOfRune r ++ t) :=
  startsClean_append _ _ (startsClean_encoderune r h).1 (startsClean_encoderune r h).2

/-! ## The claims -/

/-- C1: for every printer whose hooks are pure, `display` returns the string of
`open`, then five copies of the string of `print`, then the string of `close`,
concatenated in that order with nothing else, and leaves the receiver as it
was. -/
theorem display_pure_concat {σ : Type} (self : AbstractDisplay) (p : printer σ) (s : σ)
    (h : p.isPure) :
    self.display p s =
      (([(p.open_ s).1] ++ List.replicate 5 (p.print s).1 ++ [(p.close s).1]).flatten, s) := by
  rw [display_eq]
  simp only [(h s).1, (h s).2.1, (h s).2.2]
  simp [List.replicate]

theorem display_pure_concat_witness :
    CharDisplay.printer.isPure ∧
    (AbstractDisplay.mk).display CharDisplay.printer ⟨none, 0x2A⟩ =
      (([(CharDisplay.printer.open_ ⟨none, 0x2A⟩).1] ++
        List.replicate 5 (CharDisplay.printer.print ⟨none, 0x2A⟩).1 ++
        [(CharDisplay.printer.close ⟨none, 0x2A⟩).1]).flatten, ⟨none, 0x2A⟩) :=
  ⟨fun _ => ⟨rfl, rfl, rfl⟩,
   display_pure_concat AbstractDisplay.mk CharDisplay.printer ⟨none, 0x2A⟩
     (fun _ => ⟨rfl, rfl, rfl⟩)⟩

/-- C2: for every valid character `c` (a Unicode scalar value), `display` on a
`CharDisplay` holding `c` returns the bytes of `"<<"`, then five copies of the
string of `c`, then the bytes of `">>"`; read back as characters this is `<`,
`<`, five times `c`, `>`, `>`; and for `c = '*'` it is `"<<*****>>"`. -/
theorem charDisplay_display (self : AbstractDisplay) (d : CharDisplay) (h : isScalar d.char) :
    self.display CharDisplay.printer d =
      (goString "<<" ++ (List.replicate 5 (stringOfRune d.char)).flatten ++ goString ">>", d) ∧
    rangeRunes (self.display CharDisplay.printer d).1 =
      [0x3C, 0x3C] ++ List.replicate 5 d.char ++ [0x3E, 0x3E] ∧
    (d.char = 0x2A → (self.display CharDisplay.printer d).1 = goString "<<*****>>") := by
  have e : self.display CharDisplay.printer d =
      (goString "<<" ++ (List.replicate 5 (stringOfRune d.char)).flatten ++ goString ">>", d) := by
    rw [display_eq]
    simp [CharDisplay.printer, CharDisplay.open_, CharDisplay.print, CharDisplay.close,
      List.replicate]
  have hi := isInt32_of_isScalar _ h
  refine ⟨e, ?_, ?_⟩
  · rw [e]
    have hgt : startsClean (goString ">>") := by decide
    have e2 : goString "<<" ++ (List.replicate 5 (stringOfRune d.char)).flatten ++ goString ">>"
        = goString "<<" ++ (stringOfRune d.char ++ (stringOfRune d.char ++ (stringOfRune d.char ++
          (stringOfRune d.char ++ (stringOfRune d.char ++ goString ">>"))))) := by
      simp [List.replicate]
    rw [e2, rangeRunes_append _ _ (startsClean_stringOfRune_append _ hi _),
      rangeRunes_stringOfRune_append _ h _ (startsClean_stringOfRune_append _ hi _),
      rangeRunes_stringOfRune_append _ h _ (startsClean_stringOfRune_append _ hi _),
      rangeRunes_stringOfRune_append _ h _ (startsClean_stringOfRune_append _ hi _),
      rangeRunes_stringOfRune_append _ h _ (startsClean_stringOfRune_append _ hi _),
      rangeRunes_stringOfRune_append _ h _ hgt]
    have e3 : rangeRunes (goString "<<") = [0x3C, 0x3C] := by decide
    have e4 : rangeRunes (goString ">>") = [0x3E, 0x3E] := by decide
    rw [e3, e4]
    rfl
  · intro hc
    rw [e, hc]
    rfl

theorem charDisplay_display_witness :
    isScalar 0x2A ∧
    (AbstractDisplay.mk).display CharDisplay.printer ⟨none, 0x2A⟩ =
      (goString "<<*****>>", ⟨none, 0x2A⟩) ∧
    rangeRunes ((AbstractDisplay.mk).display CharDisplay.printer ⟨none, 0x2A⟩).1 =
      [0x3C, 0x3C, 0x2A, 0x2A, 0x2A, 0x2A, 0x2A, 0x3E, 0x3E] :=
  ⟨by decide,
   (charDisplay_display AbstractDisplay.mk ⟨none, 0x2A⟩ (by decide)).1,
   (charDisplay_display AbstractDisplay.mk ⟨none, 0x2A⟩ (by decide)).2.1⟩

/-- C3, counterexample: `"Hello, world."` has 13 characters, and the border
returned by `open()` and `close()` is not `"+-------------+\n"`, the line with 13
fill characters. -/
theorem stringDisplay_border_hello_not_thirteen :
    runeCount (goString "Hello, world.") = 13 ∧
    (StringDisplay.open_ ⟨none, goString "Hello, world."⟩).1 ≠ goString "+-------------+\n" ∧
    (StringDisplay.close ⟨none, goString "Hello, world."⟩).1 ≠ goString "+-------------+\n" ∧
    (StringDisplay.open_ ⟨none, goString "Hello, world."⟩).1 ≠
      [0x2B] ++ dashes 13 ++ [0x2B, 0x0A] := by
  decide

/-- C3, amended: for every string of `N` characters, `open()` and `close()`
each return one `'+'`, then exactly `N + 2` fill characters `'-'`, then one
`'+'`, then a line break, and leave the receiver unchanged; a string written as
`N` characters has the border of `N + 2` fill characters whatever their byte
width; for `"Hello, world."` the border is `"+---------------+\n"` (15 fill
characters) and for the empty string it is `"+--+\n"`. -/
theorem stringDisplay_border (d : StringDisplay) :
    d.open_ = ([0x2B] ++ dashes (runeCount d.str + 2) ++ [0x2B, 0x0A], d) ∧
    d.close = ([0x2B] ++ dashes (runeCount d.str + 2) ++ [0x2B, 0x0A], d) ∧
    (∀ (base : Option AbstractDisplay) (str : String),
      (StringDisplay.open_ ⟨base, goString str⟩).1 =
        [0x2B] ++ dashes (str.length + 2) ++ [0x2B, 0x0A]) ∧
    (∀ base : Option AbstractDisplay,
      (StringDisplay.open_ ⟨base, goString "Hello, world."⟩).1 = goString "+---------------+\n" ∧
      (StringDisplay.close ⟨base, goString "Hello, world."⟩).1 = goString "+---------------+\n") ∧
    (∀ base : Option AbstractDisplay,
      (StringDisplay.open_ ⟨base, goString ""⟩).1 = goString "+--+\n") := by
  have e : d.printLine = ([0x2B] ++ dashes (runeCount d.str + 2) ++ [0x2B, 0x0A], d) := by
    apply Prod.ext
    · rw [printLine_fst, dashes_frame]
    · rfl
  refine ⟨e, e, ?_, ?_, ?_⟩
  · intro base str
    show (StringDisplay.printLine ⟨base, goString str⟩).1 = _
    rw [printLine_fst, dashes_frame, runeCount_goString]
  · intro base
    constructor <;>
      (show (StringDisplay.printLine ⟨base, goString "Hello, world."⟩).1 = _
       rfl)
  · intro base
    rfl

/-- C4, counterexample: for the empty string the border returned by `open()`
and by `close()` is not `"+-+\n"`. -/
theorem stringDisplay_empty_border_not_one_dash :
    (StringDisplay.open_ ⟨none, goString ""⟩).1 ≠ goString "+-+\n" ∧
    (StringDisplay.close ⟨none, goString ""⟩).1 ≠ goString "+-+\n" := by
  decide

/-- C4, amended: for a `StringDisplay` holding the empty string, `open()` and
`close()` return exactly `"+--+\n"` and `print()` returns exactly `"|  |\n"`. -/
theorem stringDisplay_empty (base : Option AbstractDisplay) :
    (StringDisplay.open_ ⟨base, goString ""⟩).1 = goString "+--+\n" ∧
    (StringDisplay.close ⟨base, goString ""⟩).1 = goString "+--+\n" ∧
    (StringDisplay.print ⟨base, goString ""⟩).1 = goString "|  |\n" ∧
    goString "|  |\n" = [0x7C, 0x20, 0x20, 0x7C, 0x0A] := by
  exact ⟨rfl, rfl, rfl, rfl⟩

/-- C5: for every string `s`, `print()` returns a vertical bar and one space,
then `s` unchanged, then one space, a vertical bar and a line break, and leaves
the receiver unchanged; for `"Hello, world."` this is `"| Hello, world. |\n"`. -/
theorem stringDisplay_print (d : StringDisplay) :
    d.print = ([0x7C, 0x20] ++ d.str ++ [0x20, 0x7C, 0x0A], d) ∧
    (∀ base : Option AbstractDisplay,
      (StringDisplay.print ⟨base, goString "Hello, world."⟩).1 =
        goString "| Hello, world. |\n") := by
  exact ⟨rfl, fun _ => rfl⟩

/-- C6: for every string `s`, `display` on a `StringDisplay` holding `s`
returns the border line (the value of `open()`, which is `printLine`), then
five copies of the content line (the value of `print()`), then the same border
line (the value of `close()`), and leaves the receiver unchanged. -/
theorem stringDisplay_display (self : AbstractDisplay) (d : StringDisplay) :
    self.display StringDisplay.printer d =
      (([d.printLine.1] ++ List.replicate 5 d.print.1 ++ [d.printLine.1]).flatten, d) ∧
    d.open_.1 = d.printLine.1 ∧ d.close.1 = d.printLine.1 ∧
    (∀ base : Option AbstractDisplay,
      (self.display StringDisplay.printer ⟨base, goString "Hello, world."⟩).1 =
        goString ("+---------------+\n| Hello, world. |\n| Hello, world. |\n" ++
          "| Hello, world. |\n| Hello, world. |\n| Hello, world. |\n+---------------+\n")) := by
  refine ⟨?_, rfl, rfl, fun _ => by set_option maxRecDepth 100000 in rfl⟩
  rw [display_eq]
  simp [StringDisplay.printer, StringDisplay.open_, StringDisplay.print, StringDisplay.close,
    printLine_snd, List.replicate]

/-- C7: the border tracks the number of characters, not of bytes: two strings
with the same number of characters have the same border; the border of `s` has
one fill character for each character of `s` (between the fixed `"+-"` and
`"-+\n"`); and appending one character, of any byte width, to any `s` makes the
border exactly one fill character longer. -/
theorem printLine_tracks_characters (b1 b2 : Option AbstractDisplay) (s t : GoString) (r : Int)
    (h : runeCount s = runeCount t) (hr : isInt32 r) :
    (StringDisplay.printLine ⟨b1, s⟩).1 = (StringDisplay.printLine ⟨b2, t⟩).1 ∧
    (StringDisplay.printLine ⟨b1, s⟩).1 =
      [0x2B, 0x2D] ++ dashes (runeCount s) ++ [0x2D, 0x2B, 0x0A] ∧
    (StringDisplay.printLine ⟨b1, s ++ stringOfRune r⟩).1 =
      [0x2B, 0x2D] ++ dashes (runeCount s + 1) ++ [0x2D, 0x2B, 0x0A] ∧
    (StringDisplay.printLine ⟨b1, s ++ stringOfRune r⟩).1.count 0x2D =
      (StringDisplay.printLine ⟨b1, s⟩).1.count 0x2D + 1 ∧
    (StringDisplay.printLine ⟨b1, s ++ stringOfRune r⟩).1.length =
      (StringDisplay.printLine ⟨b1, s⟩).1.length + 1 := by
  have e1 := printLine_fst ⟨b1, s⟩
  have e2 := printLine_fst ⟨b2, t⟩
  have e3 := printLine_fst ⟨b1, s ++ stringOfRune r⟩
  simp only [] at e1 e2 e3
  rw [runeCount_append_stringOfRune s r hr] at e3
  refine ⟨?_, e1, e3, ?_, ?_⟩
  · rw [e1, e2, h]
  · rw [e1, e3]
    simp [dashes, List.count_replicate]
  · rw [e1, e3]
    simp [dashes]

theorem printLine_tracks_characters_witness :
    runeCount (goString "abc") = runeCount (goString "日本語") ∧
    (goString "abc").length = 3 ∧ (goString "日本語").length = 9 ∧
    (stringOfRune 0x8A9E).length = 3 ∧
    (StringDisplay.printLine ⟨none, goString "abc"⟩).1 =
      (StringDisplay.printLine ⟨none, goString "日本語"⟩).1 ∧
    (StringDisplay.printLine ⟨none, goString "abc" ++ stringOfRune 0x8A9E⟩).1.count 0x2D =
      (StringDisplay.printLine ⟨none, goString "abc"⟩).1.count 0x2D + 1 :=
  ⟨by decide, by decide, by decide, by decide,
   (printLine_tracks_characters none none (goString "abc") (goString "日本語") 0x8A9E
      (by decide) (by decide)).1,
   (printLine_tracks_characters none none (goString "abc") (goString "日本語") 0x8A9E
      (by decide) (by decide)).2.2.2.1⟩

/-- C8, counterexample: the surrogate `0xD800` is a value a `CharDisplay` can
hold, and `print()` returns the three bytes of `U+FFFD` for it: the character of
the returned string is not `0xD800`. -/
theorem charDisplay_print_surrogate :
    isInt32 0xD800 ∧
    (CharDisplay.print ⟨none, 0xD800⟩).1 = [0xEF, 0xBF, 0xBD] ∧
    rangeRunes (CharDisplay.print ⟨none, 0xD800⟩).1 = [0xFFFD] ∧
    rangeRunes (CharDisplay.print ⟨none, 0xD800⟩).1 ≠ [0xD800] := by
  decide

/-- C8, amended: for every rune value `r` that a `CharDisplay` can hold (any
32-bit integer), `print()` returns a string of exactly one character and leaves
the receiver unchanged; that character is `r` itself when `r` is a Unicode
scalar value, and `U+FFFD` when `r` is a surrogate, negative or above
`U+10FFFF`. -/
theorem charDisplay_print (d : CharDisplay) (hr : isInt32 d.char) :
    d.print.2 = d ∧
    runeCount d.print.1 = 1 ∧
    rangeRunes d.print.1 = [if isScalar d.char then d.char else 0xFFFD] := by
  have e : rangeRunes d.print.1 = [if isScalar d.char then d.char else 0xFFFD] := by
    show rangeRunes (encoderune d.char) = _
    by_cases h : isScalar d.char
    · rw [if_pos h, rangeRunes_encoderune_scalar _ h]
    · rw [if_neg h, rangeRunes_encoderune_invalid _ hr h]
  refine ⟨rfl, ?_, e⟩
  unfold runeCount
  rw [e]
  rfl

theorem charDisplay_print_witness :
    isInt32 (-1) ∧
    (CharDisplay.print ⟨none, -1⟩).2 = ⟨none, -1⟩ ∧
    runeCount (CharDisplay.print ⟨none, -1⟩).1 = 1 ∧
    rangeRunes (CharDisplay.print ⟨none, -1⟩).1 = [0xFFFD] :=
  ⟨by decide, charDisplay_print ⟨none, -1⟩ (by decide)⟩

/-- C9: with every hook appending its name to a call trace, one call of
`display` extends the trace by exactly `open`, `print`, `print`, `print`,
`print`, `print`, `close`, for every printer, every state of its receiver and
whatever the hooks return; the instrumentation changes neither the string
returned nor the receiver's final state. -/
theorem display_trace {σ : Type} (self : AbstractDisplay) (p : printer σ) (s : σ)
    (tr : List Hook) :
    (self.display (traced p) (s, tr)).2.2 =
      tr ++ [Hook.open_, Hook.print, Hook.print, Hook.print, Hook.print, Hook.print,
        Hook.close] ∧
    (self.display (traced p) (s, tr)).1 = (self.display p s).1 ∧
    (self.display (traced p) (s, tr)).2.1 = (self.display p s).2 := by
  rw [display_eq, display_eq]
  simp [traced]

/-- C10: for every `StringDisplay`, `open()` and `close()` return the identical
border string; any sequence of calls of `open()` and `close()` on the same
instance returns that same string at every call and leaves the instance, its
configured string included, unchanged. -/
theorem stringDisplay_open_close_stable (d : StringDisplay) (calls : List Bool) :
    d.open_ = d.close ∧
    runCalls (calls.map StringDisplay.openOrClose) d =
      (List.replicate calls.length d.open_.1, d) ∧
    (runCalls (calls.map StringDisplay.openOrClose) d).2.str = d.str := by
  have e : runCalls (calls.map StringDisplay.openOrClose) d =
      (List.replicate calls.length d.open_.1, d) := by
    induction calls with
    | nil => rfl
    | cons b bs ih =>
      have hb : StringDisplay.openOrClose b d = (d.open_.1, d) := by
        cases b <;> rfl
      simp only [List.map_cons, runCalls, hb, ih, List.length_cons, List.replicate_succ]
  exact ⟨rfl, e, by rw [e]⟩

/-! ## The claims on a nil printer and on widths -/

/-- On a printer that is present and whose hooks return, `displayOrPanic` is
`display`: it returns the same string and leaves the same state. -/
theorem displayOrPanic_some {σ : Type} (self : AbstractDisplay) (q : printer σ) (s : σ) :
    self.displayOrPanic (some q.orPanic) s =
      (Except.ok (self.display q s).1, (self.display q s).2) :=
  rfl

/-- On a `*CharDisplay` that is not nil, the pointer printer does what
`CharDisplay.printer` does. -/
theorem displayOrPanic_charDisplay_some (self : AbstractDisplay) (d : CharDisplay) :
    self.displayOrPanic (some CharDisplay.ptrPrinter) (some d) =
      (Except.ok (self.display CharDisplay.printer d).1,
        some (self.display CharDisplay.printer d).2) :=
  rfl

/-- On a `*StringDisplay` that is not nil, the pointer printer does what
`StringDisplay.printer` does. -/
theorem displayOrPanic_stringDisplay_some (self : AbstractDisplay) (d : StringDisplay) :
    self.displayOrPanic (some StringDisplay.ptrPrinter) (some d) =
      (Except.ok (self.display StringDisplay.printer d).1,
        some (self.display StringDisplay.printer d).2) :=
  rfl

/-- C11, counterexample: on a nil interface value `display` fails with the nil
dereference panic of the call `printer.open()`, which is not an
`InvalidArgument` condition; and on a nil `*CharDisplay` it fails only after
the hooks `open` and `print` have been invoked. -/
theorem displayOrPanic_nil_not_invalidArgument :
    (AbstractDisplay.mk).displayOrPanic (none : Option (printerOrPanic (Unit × List Hook)))
        ((), []) =
      (Except.error ⟨Failure.nilDereference, Hook.open_⟩, ((), [])) ∧
    ((AbstractDisplay.mk).displayOrPanic (none : Option (printerOrPanic (Unit × List Hook)))
        ((), [])).1 ≠ Except.error ⟨Failure.invalidArgument, Hook.open_⟩ ∧
    (AbstractDisplay.mk).displayOrPanic (some (tracedOrPanic CharDisplay.ptrPrinter))
        (none, []) =
      (Except.error ⟨Failure.nilDereference, Hook.print⟩, (none, [Hook.open_, Hook.print])) ∧
    ((AbstractDisplay.mk).displayOrPanic (some (tracedOrPanic CharDisplay.ptrPrinter))
        (none, [])).2.2 ≠ [] := by
  refine ⟨rfl, ?_, rfl, ?_⟩
  · intro h
    cases h
  · intro h
    cases h

/-- C11, amended: on an absent printer `display` returns no string and raises
no `InvalidArgument` condition (the body has no check of its argument): it
fails with the nil dereference panic.  On a nil interface value the panic is
raised by the first method call, `printer.open()`, before any hook has been
invoked: the state and the call trace are the ones it started with.  On a nil
`*CharDisplay` the hook `open` is invoked and returns, and the panic is raised
in the first `print`.  On a nil `*StringDisplay` the panic is raised inside the
hook `open`. -/
theorem displayOrPanic_nil {σ : Type} (self : AbstractDisplay) (s : σ) (tr : List Hook) :
    (self.displayOrPanic (none : Option (printerOrPanic σ)) s =
      (Except.error ⟨Failure.nilDereference, Hook.open_⟩, s) ∧
     self.displayOrPanic (none : Option (printerOrPanic (σ × List Hook))) (s, tr) =
      (Except.error ⟨Failure.nilDereference, Hook.open_⟩, (s, tr))) ∧
    (self.displayOrPanic (some (tracedOrPanic CharDisplay.ptrPrinter)) (none, tr) =
      (Except.error ⟨Failure.nilDereference, Hook.print⟩,
        (none, tr ++ [Hook.open_, Hook.print])) ∧
     self.displayOrPanic (some CharDisplay.ptrPrinter) none =
      (Except.error ⟨Failure.nilDereference, Hook.print⟩, none)) ∧
    (self.displayOrPanic (some (tracedOrPanic StringDisplay.ptrPrinter)) (none, tr) =
      (Except.error ⟨Failure.nilDereference, Hook.open_⟩, (none, tr ++ [Hook.open_])) ∧
     self.displayOrPanic (some StringDisplay.ptrPrinter) none =
      (Except.error ⟨Failure.nilDereference, Hook.open_⟩, none)) := by
  refine ⟨⟨rfl, rfl⟩, ⟨?_, rfl⟩, ⟨rfl, rfl⟩⟩
  simp [AbstractDisplay.displayOrPanic, andThen, invoke, printerOrPanic.method, tracedOrPanic,
    CharDisplay.ptrPrinter, CharDisplay.openPtr, CharDisplay.printPtr, List.range,
    List.range.loop]

theorem rangeRunes_ascii_append (a x : GoString) (h : ∀ b ∈ a, b < 128) :
    rangeRunes (a ++ x) = List.map (fun b : Nat => (b : Int)) a ++ rangeRunes x := by
  induction a with
  | nil => rfl
  | cons b bs ih =>
    have hb : b < runeSelf := h b (List.mem_cons_self _ _)
    rw [List.cons_append, rangeRunes_cons, if_pos hb,
      ih (fun c hc => h c (List.mem_cons_of_mem _ hc))]
    rfl

theorem runeCount_ascii (a : GoString) (h : ∀ b ∈ a, b < 128) : runeCount a = a.length := by
  have := rangeRunes_ascii_append a [] h
  rw [List.append_nil] at this
  unfold runeCount
  rw [this]
  simp [rangeRunes_nil]

theorem runeCount_printLine (d : StringDisplay) :
    runeCount d.printLine.1 = runeCount d.str + 5 := by
  rw [printLine_fst, runeCount_ascii]
  · simp [dashes]
  · intro b hb
    simp only [dashes, List.mem_append, List.mem_cons, List.mem_replicate, List.mem_singleton,
      List.not_mem_nil, or_false] at hb
    omega

theorem runeCount_print (d : StringDisplay) : runeCount d.print.1 = runeCount d.str + 5 := by
  have e : d.print.1 = [0x7C, 0x20] ++ (d.str ++ [0x20, 0x7C, 0x0A]) := by
    show goString "| " ++ d.str ++ goString " |\n" = _
    rw [List.append_assoc]
    rfl
  unfold runeCount
  rw [e, rangeRunes_ascii_append _ _ (by decide),
    rangeRunes_append _ _ (by decide : startsClean [0x20, 0x7C, 0x0A])]
  have e2 : rangeRunes [0x20, 0x7C, 0x0A] = [0x20, 0x7C, 0x0A] := by decide
  rw [e2]
  simp

theorem getLast?_append_three (x : GoString) (a b c : Nat) :
    (x ++ [a, b, c]).getLast? = some c := by
  have e : x ++ [a, b, c] = (x ++ [a, b]) ++ [c] := by simp
  rw [e, List.getLast?_concat]

theorem rangeRunes_stringOfRune_append_any (r : Int) (hr : isInt32 r) (t : GoString)
    (ht : startsClean t) :
    rangeRunes (stringOfRune r ++ t) = (if isScalar r then r else 0xFFFD) :: rangeRunes t := by
  unfold stringOfRune
  rw [rangeRunes_append _ _ ht]
  by_cases h : isScalar r
  · rw [if_pos h, rangeRunes_encoderune_scalar r h]; rfl
  · rw [if_neg h, rangeRunes_encoderune_invalid r hr h]; rfl

/-- C12: for every string `s` of `N` characters (valid UTF-8 or not), the
border line returned by `open()` and `close()` and the content line returned by
`print()` have the same length in characters, `N + 5` with the line break; for
a string written as `N` characters that is `N + 5` whatever their byte width;
and when `s` contains no line break, the output of `display` is seven lines,
each ended by its only line break and each `N + 5` characters long: the box is
rectangular. -/
theorem stringDisplay_lines_same_width (self : AbstractDisplay) (d : StringDisplay) :
    runeCount d.open_.1 = runeCount d.str + 5 ∧
    runeCount d.close.1 = runeCount d.str + 5 ∧
    runeCount d.print.1 = runeCount d.str + 5 ∧
    (∀ (base : Option AbstractDisplay) (str : String),
      runeCount (StringDisplay.open_ ⟨base, goString str⟩).1 = str.length + 5 ∧
      runeCount (StringDisplay.close ⟨base, goString str⟩).1 = str.length + 5 ∧
      runeCount (StringDisplay.print ⟨base, goString str⟩).1 = str.length + 5) ∧
    (0x0A ∉ d.str →
      (self.display StringDisplay.printer d).1 =
        ([d.open_.1] ++ List.replicate 5 d.print.1 ++ [d.close.1]).flatten ∧
      ∀ l ∈ [d.open_.1] ++ List.replicate 5 d.print.1 ++ [d.close.1],
        runeCount l = runeCount d.str + 5 ∧ l.count 0x0A = 1 ∧ l.getLast? = some 0x0A) := by
  have hb := runeCount_printLine d
  have hp := runeCount_print d
  refine ⟨hb, hb, hp, ?_, ?_⟩
  · intro base str
    have h1 := runeCount_printLine ⟨base, goString str⟩
    have h2 := runeCount_print ⟨base, goString str⟩
    simp only [runeCount_goString] at h1 h2
    exact ⟨h1, h1, h2⟩
  · intro hn
    constructor
    · rw [display_eq]
      simp [StringDisplay.printer, StringDisplay.open_, StringDisplay.print,
        StringDisplay.close, printLine_snd, List.replicate]
    · have hborder : d.printLine.1.count 0x0A = 1 ∧ d.printLine.1.getLast? = some 0x0A := by
        rw [printLine_fst]
        exact ⟨by simp [dashes, List.count_replicate], getLast?_append_three _ _ _ _⟩
      have hcontent : d.print.1.count 0x0A = 1 ∧ d.print.1.getLast? = some 0x0A := by
        have e : d.print.1 = [0x7C, 0x20] ++ d.str ++ [0x20, 0x7C, 0x0A] := rfl
        rw [e]
        exact ⟨by simp [List.count_eq_zero.mpr hn], getLast?_append_three _ _ _ _⟩
      intro l hl
      simp only [List.mem_append, List.mem_singleton, List.mem_replicate] at hl
      rcases hl with (hl | ⟨_, hl⟩) | hl
      · rw [hl]; exact ⟨hb, hborder⟩
      · rw [hl]; exact ⟨hp, hcontent⟩
      · rw [hl]; exact ⟨hb, hborder⟩

theorem stringDisplay_lines_same_width_witness :
    0x0A ∉ goString "日本語" ∧
    (goString "日本語").length = 9 ∧
    runeCount (StringDisplay.open_ ⟨none, goString "日本語"⟩).1 = 8 ∧
    runeCount (StringDisplay.print ⟨none, goString "日本語"⟩).1 = 8 ∧
    ∀ l ∈ [(StringDisplay.open_ ⟨none, goString "日本語"⟩).1] ++
        List.replicate 5 (StringDisplay.print ⟨none, goString "日本語"⟩).1 ++
        [(StringDisplay.close ⟨none, goString "日本語"⟩).1],
      runeCount l = runeCount (goString "日本語") + 5 ∧ l.count 0x0A = 1 ∧
        l.getLast? = some 0x0A :=
  ⟨by decide, by decide,
   (stringDisplay_lines_same_width AbstractDisplay.mk ⟨none, goString "日本語"⟩).2.2.2.1
      none "日本語" |>.1,
   (stringDisplay_lines_same_width AbstractDisplay.mk ⟨none, goString "日本語"⟩).2.2.2.1
      none "日本語" |>.2.2,
   ((stringDisplay_lines_same_width AbstractDisplay.mk ⟨none, goString "日本語"⟩).2.2.2.2
      (by decide)).2⟩

/-- C13: for every rune value `r` (any 32-bit integer), `display` on a
`CharDisplay` holding `r` returns the bytes of `"<<"`, then a middle part, then
the bytes of `">>"`; the middle part is five equal characters (`r` itself when
`r` is a Unicode scalar value, `U+FFFD` otherwise), and the whole string is
exactly 9 characters: `<`, `<`, the five, `>`, `>`. -/
theorem charDisplay_display_nine (self : AbstractDisplay) (d : CharDisplay)
    (hr : isInt32 d.char) :
    (self.display CharDisplay.printer d).1 =
      goString "<<" ++ (List.replicate 5 (stringOfRune d.char)).flatten ++ goString ">>" ∧
    rangeRunes (List.replicate 5 (stringOfRune d.char)).flatten =
      List.replicate 5 (if isScalar d.char then d.char else 0xFFFD) ∧
    rangeRunes (self.display CharDisplay.printer d).1 =
      [0x3C, 0x3C] ++ List.replicate 5 (if isScalar d.char then d.char else 0xFFFD) ++
        [0x3E, 0x3E] ∧
    runeCount (self.display CharDisplay.printer d).1 = 9 := by
  have e : (self.display CharDisplay.printer d).1 =
      goString "<<" ++ (List.replicate 5 (stringOfRune d.char)).flatten ++ goString ">>" := by
    rw [display_eq]
    simp [CharDisplay.printer, CharDisplay.open_, CharDisplay.print, CharDisplay.close,
      List.replicate]
  have hnil : startsClean [] := by decide
  have hgt : startsClean (goString ">>") := by decide
  have emid : (List.replicate 5 (stringOfRune d.char)).flatten
      = stringOfRune d.char ++ (stringOfRune d.char ++ (stringOfRune d.char ++
        (stringOfRune d.char ++ (stringOfRune d.char ++ [])))) := by
    simp [List.replicate]
  have eall : goString "<<" ++ (List.replicate 5 (stringOfRune d.char)).flatten ++ goString ">>"
      = [0x3C, 0x3C] ++ (stringOfRune d.char ++ (stringOfRune d.char ++ (stringOfRune d.char ++
        (stringOfRune d.char ++ (stringOfRune d.char ++ goString ">>"))))) := by
    have : goString "<<" = [0x3C, 0x3C] := by decide
    rw [this]
    simp [List.replicate]
  have hmid : rangeRunes (List.replicate 5 (stringOfRune d.char)).flatten =
      List.replicate 5 (if isScalar d.char then d.char else 0xFFFD) := by
    rw [emid,
      rangeRunes_stringOfRune_append_any _ hr _ (startsClean_stringOfRune_append _ hr _),
      rangeRunes_stringOfRune_append_any _ hr _ (startsClean_stringOfRune_append _ hr _),
      rangeRunes_stringOfRune_append_any _ hr _ (startsClean_stringOfRune_append _ hr _),
      rangeRunes_stringOfRune_append_any _ hr _ (startsClean_stringOfRune_append _ hr _),
      rangeRunes_stringOfRune_append_any _ hr _ hnil, rangeRunes_nil]
    rfl
  have hall : rangeRunes (self.display CharDisplay.printer d).1 =
      [0x3C, 0x3C] ++ List.replicate 5 (if isScalar d.char then d.char else 0xFFFD) ++
        [0x3E, 0x3E] := by
    rw [e, eall, rangeRunes_ascii_append _ _ (by decide),
      rangeRunes_stringOfRune_append_any _ hr _ (startsClean_stringOfRune_append _ hr _),
      rangeRunes_stringOfRune_append_any _ hr _ (startsClean_stringOfRune_append _ hr _),
      rangeRunes_stringOfRune_append_any _ hr _ (startsClean_stringOfRune_append _ hr _),
      rangeRunes_stringOfRune_append_any _ hr _ (startsClean_stringOfRune_append _ hr _),
      rangeRunes_stringOfRune_append_any _ hr _ hgt]
    have e4 : rangeRunes (goString ">>") = [0x3E, 0x3E] := by decide
    rw [e4]
    rfl
  refine ⟨e, hmid, hall, ?_⟩
  unfold runeCount
  rw [hall]
  rfl

theorem charDisplay_display_nine_witness :
    isInt32 (-5) ∧
    ((AbstractDisplay.mk).display CharDisplay.printer ⟨none, -5⟩).1 =
      [0x3C, 0x3C, 0xEF, 0xBF, 0xBD, 0xEF, 0xBF, 0xBD, 0xEF, 0xBF, 0xBD, 0xEF, 0xBF, 0xBD,
        0xEF, 0xBF, 0xBD, 0x3E, 0x3E] ∧
    rangeRunes ((AbstractDisplay.mk).display CharDisplay.printer ⟨none, -5⟩).1 =
      [0x3C, 0x3C, 0xFFFD, 0xFFFD, 0xFFFD, 0xFFFD, 0xFFFD, 0x3E, 0x3E] ∧
    runeCount ((AbstractDisplay.mk).display CharDisplay.printer ⟨none, -5⟩).1 = 9 :=
  ⟨by decide,
   (charDisplay_display_nine AbstractDisplay.mk ⟨none, -5⟩ (by decide)).1,
   (charDisplay_display_nine AbstractDisplay.mk ⟨none, -5⟩ (by decide)).2.2.1,
   (charDisplay_display_nine AbstractDisplay.mk ⟨none, -5⟩ (by decide)).2.2.2⟩

end TemplateMethod
